import Mathlib

/-!
Verification of the history-extraction and aggregation engine of
OWASP-Project-Metrics against its natural-language specification.

The Python sources are shallowly embedded over `PyStr := List Char`
(Python 2 `str` values; all inputs of interest are ASCII, so character
positions coincide with byte positions).  Each helper below models one
Python string primitive with the exact semantics of the original
(`str.split` on a one-character separator keeps empty pieces, `find`
returns `-1` when the pattern is absent, `partition` returns the whole
string as the head when the separator is absent, and so on).
-/

namespace Prometrics

abbrev PyStr := List Char

/-- Conversion of a Lean string literal to the embedded string type. -/
def pys (s : String) : PyStr := s.data

/-- The NUL sentinel byte used by the commit/change/stat queries. -/
def nulC : Char := '\x00'

/-- Space, tab and newline characters. -/
def spC : Char := ' '

def tabC : Char := '\x09'

def lfC : Char := '\x0a'

/-- `s.split(sep)` for a one-character separator: keeps empty pieces and
never collapses adjacent separators; `''.split(sep) == ['']`. -/
def pySplitC (sep : Char) : PyStr → List PyStr
  | [] => [[]]
  | c :: cs =>
    let r := pySplitC sep cs
    if c = sep then [] :: r
    else
      match r with
      | [] => [[c]]
      | x :: xs => (c :: x) :: xs

/-- `sep.join(xs)` for a one-character separator. -/
def pyJoin (sep : Char) : List PyStr → PyStr
  | [] => []
  | [x] => x
  | x :: y :: rest => x ++ sep :: pyJoin sep (y :: rest)

/-- Index of the leftmost occurrence of `pat` in `s`, if any
(`str.find` before the `-1` encoding). -/
def pyFindAux (pat : PyStr) : PyStr → Option Nat
  | [] => if pat = [] then some 0 else none
  | c :: cs =>
    if pat.isPrefixOf (c :: cs) then some 0
    else (pyFindAux pat cs).map (· + 1)

/-- `s.find(pat)`: leftmost occurrence, `-1` when absent. -/
def pyFind (pat : PyStr) (s : PyStr) : Int :=
  match pyFindAux pat s with
  | some n => (n : Int)
  | none => -1

/-- `s.partition(pat)`, with the middle component replaced by a Boolean
recording whether the separator was found. -/
def pyPartition (pat : PyStr) (s : PyStr) : PyStr × Bool × PyStr :=
  match pyFindAux pat s with
  | none => (s, false, [])
  | some i => (s.take i, true, s.drop (i + pat.length))

/-- `s.rstrip(c)` for a single strip character. -/
def pyRstrip (c : Char) (s : PyStr) : PyStr :=
  (s.reverse.dropWhile (fun ch => ch = c)).reverse

/-- `s.lstrip(c)` for a single strip character. -/
def pyLstrip (c : Char) (s : PyStr) : PyStr :=
  s.dropWhile (fun ch => ch = c)

/-- `s[:i]` with a possibly negative bound, as in Python slicing. -/
def pySliceTo (s : PyStr) (i : Int) : PyStr :=
  if 0 ≤ i then s.take i.toNat else s.take (s.length - (-i).toNat)

/-- `s.replace(pat, rep)` (non-overlapping, left to right).  The fuel is
the length of the scanned string; every step consumes at least one
character, so the fuel never runs out on the initial call. -/
def pyReplaceGo (pat rep : PyStr) : Nat → PyStr → PyStr
  | 0, s => s
  | fuel + 1, s =>
    if pat ≠ [] ∧ pat.isPrefixOf s ∧ s ≠ [] then
      rep ++ pyReplaceGo pat rep fuel (s.drop pat.length)
    else
      match s with
      | [] => []
      | c :: cs => c :: pyReplaceGo pat rep fuel cs

def pyReplace (pat rep s : PyStr) : PyStr :=
  pyReplaceGo pat rep s.length s

/-- `line.startswith(nul)` on the embedded strings. -/
def startsNul : PyStr → Bool
  | [] => false
  | c :: _ => c = nulC

/-! ## Rename-path reconstruction

`core/git.py`, `rename2files` (lines 150-159).  The source computes
`prefix`/`postfix` from the brace positions and then never uses them: the
returned pair comes from partitioning the *whole* path on `' => '`. -/

def rename2files (rename : PyStr) : PyStr × PyStr :=
  let oc_pos := pyFind (pys "\x7b") rename
  let cc_pos := pyFind (pys "\x7d") rename
  let ar_pos := pyFind (pys " => ") rename
  if 0 ≤ oc_pos ∧ oc_pos < cc_pos ∧ oc_pos < ar_pos ∧ ar_pos < cc_pos then
    let _prefix := rename.take oc_pos.toNat
    let _postfix := rename.drop (cc_pos.toNat + 1)
    let p := pyPartition (pys " => ") rename
    (p.1, p.2.2)
  else (rename, rename)

/-- `prometrics.py`, `get_all_stats` (lines 355-370): the path-to-files
reconstruction performed on each numstat line, including the final
`.replace('//', '/')` applied at the yield.  When the braces are present
but the middle has no `' => '` separator the source leaves
`src_file`/`dst_file` unassigned (stale bindings or a NameError); that
case is modelled as `none`. -/
def get_all_stats_files (fname : PyStr) : Option (PyStr × PyStr) :=
  let start := pyFind (pys "\x7b") fname
  let stop := pyFind (pys "\x7d") fname
  let clean := fun (s : PyStr) => pyReplace (pys "//") (pys "/") s
  if start < stop then
    let pre := pySliceTo fname start
    let middle := (fname.take stop.toNat).drop (start + 1).toNat
    let post := fname.drop (stop.toNat + 1)
    match pyPartition (pys " => ") middle with
    | (src_middle, true, dst_middle) =>
      some (clean (pre ++ src_middle ++ post),
            clean (pre ++ dst_middle ++ post))
    | (_, false, _) => none
  else
    match pyPartition (pys " => ") fname with
    | (src_file, true, dst_file) => some (clean src_file, clean dst_file)
    | (_, false, _) => some (clean fname, clean fname)

/-! ## Hash resolver

`core/git.py`, `Git.short2long_hash` (lines 315-317) and `prometrics.py`,
`short2long_hash` (lines 235-244).  The underlying `git rev-parse
--verify` round trip is modelled by the `resolve` parameter (the trimmed
standard output of the query); `*_decide` is the branch of the source
that answers *without* issuing that query, so `… = some _` states that no
subprocess is invoked for the input. -/

def NULL_HASH : PyStr := List.replicate 40 '0'

/-- The no-query branch of `Git.short2long_hash`:
`len(short) >= 7 and all(ch == '0' for ch in short)`. -/
def short2long_decide (short : PyStr) : Option PyStr :=
  if 7 ≤ short.length ∧ short.all (fun ch => ch == '0') then some NULL_HASH
  else none

def short2long_hash (resolve : PyStr → PyStr) (short : PyStr) : PyStr :=
  match short2long_decide short with
  | some h => h
  | none => resolve short

/-- The no-query branch of the standalone `short2long_hash` in
`prometrics.py`: `if short == '0000000'` — only the exactly-seven-zero
string is special-cased. -/
def prometrics_short2long_decide (short : PyStr) : Option PyStr :=
  if short = pys "0000000" then some (List.replicate 40 '0') else none

def prometrics_short2long_hash (resolve : PyStr → PyStr) (short : PyStr) : PyStr :=
  match prometrics_short2long_decide short with
  | some h => h
  | none => resolve short

/-! ## Aggregation over commits (`repout.py`, `to_html5`, lines 88-133, and
`prometrics.py`, `info2html5`, lines 776-785)

Commit timestamps are naive `datetime` values, modelled as integer second
counts from `0001-01-01 00:00:00` (so `datetime(1,1,1).weekday() == 0`
makes the weekday of second `t` equal `(t / 86400) % 7`, and the hour is
`(t % 86400) / 3600`).  `timedelta.days` floors towards negative
infinity, i.e. it is `Int.fdiv · 86400` of the second difference. -/

structure RCommit where
  author_email : PyStr
  author_date : Int
  commiter_date : Int
deriving DecidableEq

/-- `timedelta.days` of a difference of `seconds`. -/
def tdDays (seconds : Int) : Int := Int.fdiv seconds 86400

/-- `datetime.hour`. -/
def dtHour (t : Int) : Nat := (Int.emod t 86400).toNat / 3600

/-- `datetime.weekday()`. -/
def dtWeekday (t : Int) : Nat := (Int.emod (Int.fdiv t 86400) 7).toNat

/-- `min(commits, key=lambda c: c.author_date).author_date`; the source
only evaluates it on a non-empty commit list. -/
def first_commit_date : List RCommit → Int
  | [] => 0
  | c :: cs => cs.foldl (fun a cm => min a cm.author_date) c.author_date

/-- `repout.py` lines 110-132: the commits collected into
`last_<days>days_commits` — the loop appends `cm` whenever
`(cm.author_date - first_commit).days <= days`. -/
def last_interval_commits (days : Int) (cms : List RCommit) : List RCommit :=
  let first := first_commit_date cms
  cms.filter (fun cm => tdDays (cm.author_date - first) ≤ days)

/-- `repout.py` lines 109-133: `inactive_days` accumulates
`(cm.author_date - first_commit).days` for every commit and finally adds
`(now - commits[-1].author_date).days`. -/
def repout_inactive_days (now : Int) (cms : List RCommit) : Int :=
  let first := first_commit_date cms
  let base := cms.foldl (fun acc cm => acc + tdDays (cm.author_date - first)) 0
  match cms.getLast? with
  | some last => base + tdDays (now - last.author_date)
  | none => base

/-- `prometrics.py` lines 776-785: the gap-walking `inactive_days` of
`info2html5` (the source indexes `master_commits[0]`, so the empty case
is unreachable). -/
def prometrics_inactive_days (now : Int) (cms : List RCommit) : Int :=
  match cms with
  | [] => 0
  | c0 :: _ =>
    let r := cms.foldl
      (fun (p : Int × Int) cm =>
        let delta := tdDays (cm.commiter_date - p.2)
        if 1 < delta then (p.1 + delta, p.2 + delta * 86400)
        else if delta = 1 then (p.1, p.2 + 86400)
        else p)
      (0, c0.commiter_date)
    r.1 + tdDays (now - r.2)

/-- The day number of a timestamp (used by the spec-side count below). -/
def dayOf (t : Int) : Int := Int.fdiv t 86400

/-- Spec-side definition, for comparison with the source computations
(it follows the spec's words, not the code): the number of calendar days
within the span from the first commit to the last observation `now` that
contain zero commits. -/
def inactive_days_spec (now : Int) (cms : List RCommit) : Nat :=
  let d0 := dayOf (first_commit_date cms)
  let d1 := dayOf now
  (((List.range (1 + (d1 - d0).toNat)).map (fun k => d0 + (k : Int))).filter
    (fun d => cms.all (fun cm => dayOf cm.author_date != d))).length

/-- `l[i] += 1` on a histogram list. -/
def incAt (l : List Nat) (i : Nat) : List Nat :=
  l.set i (l.getD i 0 + 1)

/-- `repout.py` lines 95/118: `hours = [0]*24`, then
`hours[cm.author_date.hour] += 1` per commit. -/
def hours_hist (cms : List RCommit) : List Nat :=
  cms.foldl (fun h cm => incAt h (dtHour cm.author_date)) (List.replicate 24 0)

/-- `repout.py` lines 98/122: `week_days = [0]*7`, then
`week_days[cm.author_date.weekday()] += 1` per commit. -/
def week_days_hist (cms : List RCommit) : List Nat :=
  cms.foldl (fun h cm => incAt h (dtWeekday cm.author_date)) (List.replicate 7 0)

/-! ## Change parser

`core/git.py`, `Git.changes` (lines 319-350).  The generator is embedded
as a per-line step over the single piece of loop state (the current
commit hash, unset before the first marker line) returning the records
yielded by that line together with either the next state or the Python
exception the line raises (`ValueError` from tuple unpacking,
`IndexError` from `status[0]` on an empty segment, `NameError` from
reading `commit` before any marker line). -/

inductive PyExn where
  | nameError
  | valueError
  | indexError
deriving DecidableEq

structure Change where
  commit : PyStr
  src_mode : PyStr
  src_hash : PyStr
  dst_mode : PyStr
  dst_hash : PyStr
  status : Char
  percentage : Option PyStr
  src_file : Option PyStr
  dst_file : Option PyStr
deriving DecidableEq

def STATUS_ADD : Char := 'A'

def STATUS_COPY : Char := 'C'

def STATUS_DELETE : Char := 'D'

def STATUS_MODIFICATION : Char := 'M'

def STATUS_RENAME : Char := 'R'

def STATUS_CHANGE_TYPE : Char := 'T'

def STATUS_UNMERGED : Char := 'U'

/-- `s or None` on a Python string. -/
def pyOrNone (s : PyStr) : Option PyStr :=
  if s = [] then none else some s

/-- Outcome of the status dispatch (the `if/elif/else` chain on the
status character): which source/destination files to yield, skip the
line (`continue`), or fail. -/
inductive ChAction where
  | yield (src_file dst_file : Option PyStr)
  | skip
  | fail (e : PyExn)
deriving DecidableEq

def changeFiles (status : Char) (files : PyStr) : ChAction :=
  if status = STATUS_ADD then .yield none (some files)
  else if status = STATUS_DELETE then .yield (some files) none
  else if status = STATUS_MODIFICATION ∨ status = STATUS_CHANGE_TYPE then
    .yield (some files) (some files)
  else if status = STATUS_RENAME ∨ status = STATUS_COPY ∨ status = STATUS_UNMERGED then
    match pySplitC tabC files with
    | [a, b] => .yield (some a) (some b)
    | _ => .fail .valueError
  else .skip

/-- One iteration of the `Git.changes` loop body on `line`. -/
def changesStep (resolve : PyStr → PyStr) (commit : Option PyStr) (line : PyStr) :
    List Change × Except PyExn (Option PyStr) :=
  if line = [] then ([], .ok commit)
  else if startsNul line then
    ([], .ok (some ((pySplitC nulC line).getD 1 [])))
  else
    match pySplitC spC line with
    | f0 :: f1 :: f2 :: f3 :: rest =>
      let finfo := pyJoin spC (f0 :: f1 :: f2 :: f3 :: rest)
      let src_hash := short2long_hash resolve (pyRstrip '.' f2)
      let dst_hash := short2long_hash resolve (pyRstrip '.' f3)
      let p := pyPartition [tabC] finfo
      match p.1 with
      | [] => ([], .error .indexError)
      | sc :: _ =>
        let perc : Option PyStr := pyOrNone ([sc].drop 1)
        match changeFiles sc p.2.2 with
        | .yield sf df =>
          match commit with
          | none => ([], .error .nameError)
          | some cm =>
            ([⟨cm, pyLstrip ':' f0, src_hash, pyLstrip ':' f1, dst_hash, sc, perc, sf, df⟩],
             .ok commit)
        | .skip => ([], .ok commit)
        | .fail e => ([], .error e)
    | _ => ([], .error .valueError)

/-- Run of the `Git.changes` generator: records yielded before the
generator finishes or raises. -/
def changesGo (resolve : PyStr → PyStr) (commit : Option PyStr) :
    List PyStr → List Change × Option PyExn
  | [] => ([], none)
  | l :: ls =>
    match changesStep resolve commit l with
    | (ems, .ok st) =>
      let r := changesGo resolve st ls
      (ems ++ r.1, r.2)
    | (ems, .error e) => (ems, some e)

def changes (resolve : PyStr → PyStr) (lines : List PyStr) :
    List Change × Option PyExn :=
  changesGo resolve none lines

/-- The status character as the parser computes it: the first character
of the segment of `' '.join(line.split(' '))` before the first tab. -/
def changeStatusChar (line : PyStr) : Option Char :=
  ((pyPartition [tabC] (pyJoin spC (pySplitC spC line))).1).head?

def RecognizedStatus : List Char :=
  [STATUS_ADD, STATUS_COPY, STATUS_DELETE, STATUS_MODIFICATION,
   STATUS_RENAME, STATUS_CHANGE_TYPE, STATUS_UNMERGED]

/-! ## Commit parser

`core/git.py`, `Git.commits` (lines 256-313) plus `restore_commit`
(lines 183-188).  A header line is split on the NUL byte into exactly 12
fields (`GitFormatError` otherwise); fields 6 and 9 (author/committer
date) are empty for malformed history entries and become `None`, all
other fields are plain strings, so `is_invalid` (`None in fields`) holds
exactly when one of the two dates is `None`.  `datetime.strptime` is
modelled as the total carrier of its input text (the part of the field
before the last space, per `rpartition(' ')`); its possible `ValueError`
on garbage text is outside the properties below, which only distinguish
empty from non-empty date fields. -/

inductive GitFormatError where
  | invalidLine (line : PyStr)
deriving DecidableEq

/-- `fields[6].rpartition(' ')[0]` — the text handed to `strptime`. -/
def pyRPartitionBefore (sep : Char) (s : PyStr) : PyStr :=
  let ps := pySplitC sep s
  if ps.length ≤ 1 then [] else pyJoin sep ps.dropLast

/-- `fields[i] = strptime(...) if fields[i] else None`. -/
def parseDateField (s : PyStr) : Option PyStr :=
  if s = [] then none else some (pyRPartitionBefore spC s)

structure GCommit where
  hash : PyStr
  tree : PyStr
  parent : PyStr
  author_name : PyStr
  author_email : PyStr
  author_date : Option PyStr
  commiter_name : PyStr
  commiter_email : PyStr
  commiter_date : Option PyStr
  subject : PyStr
  text : PyStr
deriving DecidableEq

/-- A parsed header awaiting its message body (`fields` between two
lines, before the final `fields[1:-1] + [text]` slice). -/
structure Pending where
  hash : PyStr
  tree : PyStr
  parent : PyStr
  author_name : PyStr
  author_email : PyStr
  author_date : Option PyStr
  commiter_name : PyStr
  commiter_email : PyStr
  commiter_date : Option PyStr
  subject : PyStr
deriving DecidableEq

/-- Header processing: `fields = line.split('\x00')`, the 12-field check
(`GitFormatError` otherwise) and the date conversions.  Fields 0 and 11
are the empty pieces around the leading/trailing sentinel, discarded by
the later `fields[1:-1]` slice. -/
def parseHeader (line : PyStr) : Except GitFormatError Pending :=
  let fields := pySplitC nulC line
  if fields.length = 12 then
    .ok { hash := fields.getD 1 []
          tree := fields.getD 2 []
          parent := fields.getD 3 []
          author_name := fields.getD 4 []
          author_email := fields.getD 5 []
          author_date := parseDateField (fields.getD 6 [])
          commiter_name := fields.getD 7 []
          commiter_email := fields.getD 8 []
          commiter_date := parseDateField (fields.getD 9 [])
          subject := fields.getD 10 [] }
  else .error (.invalidLine line)

def mkGCommit (p : Pending) (txt : PyStr) : GCommit :=
  { hash := p.hash, tree := p.tree, parent := p.parent,
    author_name := p.author_name, author_email := p.author_email,
    author_date := p.author_date, commiter_name := p.commiter_name,
    commiter_email := p.commiter_email, commiter_date := p.commiter_date,
    subject := p.subject, text := txt }

/-- `restore_commit` (lines 183-188): backfill the missing dates from
`last`. -/
def restore_commit (c last : GCommit) : GCommit :=
  { c with
    author_date := if c.author_date = none then last.author_date else c.author_date,
    commiter_date := if c.commiter_date = none then last.commiter_date else c.commiter_date }

/-- Loop state of `Git.commits` between two lines: the pending header
with its accumulated body lines (`in_data` is truthy exactly when a
header is pending), the last well-formed commit, and the `no_date`
buffer of date-less commits. -/
structure CState where
  pending : Option Pending
  text : List PyStr
  last : Option GCommit
  buf : List GCommit
deriving DecidableEq

def initCState : CState := { pending := none, text := [], last := none, buf := [] }

/-- Completion of a commit when the next header (or the end of the
stream) is reached: emitted records, new `last`, new `no_date` buffer.
The buffer is flushed with `no_date.pop()`, i.e. in reverse insertion
order, and only when a previous well-formed commit exists. -/
def completeCommit (p : Pending) (text : List PyStr) (last : Option GCommit)
    (buf : List GCommit) : List GCommit × Option GCommit × List GCommit :=
  let c := mkGCommit p (pyJoin lfC text)
  if c.author_date = none ∨ c.commiter_date = none then
    ([], last, buf ++ [c])
  else
    match last with
    | some l => (buf.reverse.map (fun b => restore_commit b l) ++ [c], some c, [])
    | none => ([c], some c, buf)

/-- One iteration of the `Git.commits` loop body on `line`.  A line
starting with the NUL sentinel both completes the pending commit and is
re-parsed as the next header within the same iteration; with no pending
header every line is parsed as a header. -/
def commitsStep (s : CState) (line : PyStr) :
    List GCommit × Except GitFormatError CState :=
  match s.pending with
  | some p =>
    if startsNul line then
      let r := completeCommit p s.text s.last s.buf
      match parseHeader line with
      | .ok p2 => (r.1, .ok { pending := some p2, text := [], last := r.2.1, buf := r.2.2 })
      | .error e => (r.1, .error e)
    else ([], .ok { s with text := s.text ++ [line] })
  | none =>
    match parseHeader line with
    | .ok p2 => ([], .ok { s with pending := some p2, text := [] })
    | .error e => ([], .error e)

/-- The final `if last: while no_date: yield restore_commit(no_date.pop(), last)`
flush: nothing is emitted when no well-formed commit was ever seen. -/
def flushBuf (buf : List GCommit) (last : Option GCommit) : List GCommit :=
  match last with
  | some l => buf.reverse.map (fun b => restore_commit b l)
  | none => []

/-- End of stream: `if fields:` completes the pending commit, then
`if last:` flushes the remaining buffered commits. -/
def commitsFinish (s : CState) : List GCommit :=
  let r :=
    match s.pending with
    | some p => completeCommit p s.text s.last s.buf
    | none => ([], s.last, s.buf)
  r.1 ++ flushBuf r.2.2 r.2.1

def commitsGo (s : CState) : List PyStr → List GCommit × Option GitFormatError
  | [] => (commitsFinish s, none)
  | l :: ls =>
    match commitsStep s l with
    | (ems, .ok s2) =>
      let r := commitsGo s2 ls
      (ems ++ r.1, r.2)
    | (ems, .error e) => (ems, some e)

/-- Run of the `Git.commits` generator: records yielded before the
generator finishes or raises `GitFormatError`. -/
def commits (lines : List PyStr) : List GCommit × Option GitFormatError :=
  commitsGo initCState lines

/-! ## Theorems -/

/-- C1.  The claim says `rename2files("a/\x7bold => new\x7d/b")` yields
source `"a/old/b"` and destination `"a/new/b"`.  The code computes the
brace prefix and postfix and then never uses them: it partitions the
whole path on `' => '`, returning `("a/\x7bold", "new\x7d/b")`.  The
sibling reconstruction in `get_all_stats` performs the substitution the
claim describes, and a path with no braces is returned unchanged by
`rename2files` — evidence that the spec states the intent and
`rename2files` is a slip. -/
theorem c1_rename_reconstruction_eval :
    rename2files (pys "a/\x7bold => new\x7d/b") = (pys "a/\x7bold", pys "new\x7d/b") ∧
    rename2files (pys "a/\x7bold => new\x7d/b") ≠ (pys "a/old/b", pys "a/new/b") ∧
    get_all_stats_files (pys "a/\x7bold => new\x7d/b") = some (pys "a/old/b", pys "a/new/b") ∧
    rename2files (pys "a/b") = (pys "a/b", pys "a/b") := by decide

/-- C3, counterexample.  `"00000000"` is an all-zero string of length
8 ≥ 7, yet the standalone resolver of `prometrics.py` special-cases only
the exactly-seven-zero string: its no-query branch does not apply
(`… = none`, so the underlying `git rev-parse` query is issued) and the
returned value is not the sentinel, refuting the claim as stated for
that resolver. -/
theorem c3_allzero_counterexample :
    7 ≤ (pys "00000000").length ∧
    (pys "00000000").all (fun ch => ch == '0') = true ∧
    prometrics_short2long_decide (pys "00000000") = none ∧
    prometrics_short2long_hash (fun s => s) (pys "00000000") ≠ NULL_HASH := by decide

/-- C3, amended.  The core resolver (`Git.short2long_hash`) returns the
sentinel for every all-zero string of length at least 7 without issuing
the underlying query; the standalone resolver in `prometrics.py` does so
only for the exactly-seven-zero string, and issues a query for every
other all-zero input. -/
theorem c3_allzero_amended (short : PyStr) (h7 : 7 ≤ short.length)
    (hz : short.all (fun ch => ch == '0') = true) :
    short2long_decide short = some NULL_HASH ∧
    (∀ resolve, short2long_hash resolve short = NULL_HASH) ∧
    (short ≠ pys "0000000" → prometrics_short2long_decide short = none) := by
  have h1 : short2long_decide short = some NULL_HASH := by
    simp [short2long_decide, h7, hz]
  refine ⟨h1, fun resolve => ?_, fun hne => ?_⟩
  · simp [short2long_hash, h1]
  · simp [prometrics_short2long_decide, hne]

theorem c3_allzero_amended_witness :
    7 ≤ (pys "00000000").length ∧
    (pys "00000000").all (fun ch => ch == '0') = true ∧
    short2long_decide (pys "00000000") = some NULL_HASH ∧
    short2long_hash (fun s => s) (pys "00000000") = NULL_HASH ∧
    prometrics_short2long_decide (pys "00000000") = none := by
  have h := c3_allzero_amended (pys "00000000") (by decide) (by decide)
  exact ⟨by decide, by decide, h.1, h.2.1 (fun s => s), h.2.2 (by decide)⟩

/-- C5.  Evaluating the rolling-window computation of `to_html5` on two
commits dated day 0 and day 50 (seconds) with the observation time at
day 50: the "last 7 days" collection contains exactly the commit that is
50 days before both the latest commit and "now", and excludes the latest
commit itself — the window is measured forward from the *first* commit
(`delta = cm.author_date - first_commit`), not backward from now or the
latest commit as the claim states. -/
theorem c5_window_from_first_commit_eval :
    last_interval_commits 7 [⟨pys "a@x", 0, 0⟩, ⟨pys "b@x", 50 * 86400, 50 * 86400⟩] =
      [⟨pys "a@x", 0, 0⟩] ∧
    tdDays ((50 * 86400 : Int) - 0) = 50 ∧ ¬((50 : Int) ≤ 7) := by decide

/-- C6.  Evaluating the "inactive days" computations on two commits
dated day 0 and day 2 with the observation time at day 2: exactly one
calendar day in the span (day 1) contains zero commits, but
`to_html5` returns 2 (it sums each commit's whole-day offset from
the first commit), and `info2html5` also returns 2 (it adds the full
gap `delta` instead of the `delta - 1` empty days between two
consecutive commit days). -/
theorem c6_inactive_days_eval :
    repout_inactive_days (2 * 86400) [⟨[], 0, 0⟩, ⟨[], 2 * 86400, 2 * 86400⟩] = 2 ∧
    prometrics_inactive_days (2 * 86400) [⟨[], 0, 0⟩, ⟨[], 2 * 86400, 2 * 86400⟩] = 2 ∧
    inactive_days_spec (2 * 86400) [⟨[], 0, 0⟩, ⟨[], 2 * 86400, 2 * 86400⟩] = 1 := by decide

/-! ### C9: histogram sums -/

lemma length_incAt (l : List Nat) (i : Nat) : (incAt l i).length = l.length := by
  simp [incAt]

lemma sum_incAt (l : List Nat) (i : Nat) (h : i < l.length) :
    (incAt l i).sum = l.sum + 1 := by
  induction l generalizing i with
  | nil => simp at h
  | cons a as ih =>
    cases i with
    | zero => simp [incAt]; omega
    | succ j =>
      have hj : j < as.length := by simpa using h
      have hstep : incAt (a :: as) (j + 1) = a :: incAt as j := by
        simp [incAt]
      rw [hstep, List.sum_cons, List.sum_cons, ih j hj]
      omega

lemma hist_fold_sum (f : RCommit → Nat) (bound : Nat) (hf : ∀ cm, f cm < bound) :
    ∀ (cms : List RCommit) (l : List Nat), l.length = bound →
      (cms.foldl (fun h cm => incAt h (f cm)) l).sum = l.sum + cms.length
  | [], l, _ => by simp
  | cm :: cms, l, hl => by
    simp only [List.foldl_cons, List.length_cons]
    rw [hist_fold_sum f bound hf cms (incAt l (f cm)) (by rw [length_incAt, hl])]
    rw [sum_incAt l (f cm) (by rw [hl]; exact hf cm)]
    omega

lemma dtHour_lt (t : Int) : dtHour t < 24 := by
  have h1 : 0 ≤ Int.emod t 86400 := Int.emod_nonneg t (by norm_num)
  have h2 : Int.emod t 86400 < 86400 := Int.emod_lt_of_pos t (by norm_num)
  unfold dtHour
  omega

lemma dtWeekday_lt (t : Int) : dtWeekday t < 7 := by
  have h1 : 0 ≤ Int.emod (Int.fdiv t 86400) 7 :=
    Int.emod_nonneg (Int.fdiv t 86400) (by norm_num)
  have h2 : Int.emod (Int.fdiv t 86400) 7 < 7 :=
    Int.emod_lt_of_pos (Int.fdiv t 86400) (by norm_num)
  unfold dtWeekday
  omega

/-- C9.  Each commit increments exactly one in-range bucket of the
hour-of-day histogram (24 buckets) and one of the weekday histogram
(7 buckets), so both histograms sum to the total commit count. -/
theorem c9_histograms_sum (cms : List RCommit) :
    (hours_hist cms).sum = cms.length ∧ (week_days_hist cms).sum = cms.length := by
  constructor
  · have h := hist_fold_sum (fun cm => dtHour cm.author_date) 24
      (fun cm => dtHour_lt cm.author_date) cms (List.replicate 24 0) (by simp)
    simpa [hours_hist] using h
  · have h := hist_fold_sum (fun cm => dtWeekday cm.author_date) 7
      (fun cm => dtWeekday_lt cm.author_date) cms (List.replicate 7 0) (by simp)
    simpa [week_days_hist] using h

/-! ### C7: unrecognized statuses are skipped -/

lemma changeFiles_skip (ch : Char) (files : PyStr) (hn : ch ∉ RecognizedStatus) :
    changeFiles ch files = .skip := by
  simp only [RecognizedStatus, List.mem_cons, List.not_mem_nil, or_false,
    not_or] at hn
  obtain ⟨hA, hC, hD, hM, hR, hT, hU⟩ := hn
  unfold changeFiles
  rw [if_neg hA, if_neg hD, if_neg (by tauto), if_neg (by tauto)]

/-- C7.  A change line (non-empty, not a commit marker, with at least
four space-separated fields) whose status character — as the parser
computes it, the first character of the segment before the first tab —
is not one of `A C D M R T U` is skipped: the step yields nothing,
raises nothing, leaves the state unchanged, and the run over the
remaining lines proceeds as if the line were absent. -/
theorem c7_unknown_status_skipped (resolve : PyStr → PyStr) (st : Option PyStr)
    (line : PyStr) (rest : List PyStr) (ch : Char)
    (h0 : startsNul line = false)
    (h1 : 4 ≤ (pySplitC spC line).length)
    (hch : changeStatusChar line = some ch)
    (hn : ch ∉ RecognizedStatus) :
    changesStep resolve st line = ([], Except.ok st) ∧
    changesGo resolve st (line :: rest) = changesGo resolve st rest := by
  have hne : line ≠ [] := by
    intro h
    rw [h] at h1
    simp [pySplitC] at h1
  have hstep : changesStep resolve st line = ([], Except.ok st) := by
    unfold changesStep
    rw [if_neg hne, if_neg (by simp [h0])]
    rcases hsp : pySplitC spC line with _ | ⟨f0, _ | ⟨f1, _ | ⟨f2, _ | ⟨f3, rest2⟩⟩⟩⟩ <;>
      rw [hsp] at h1 <;> simp only [List.length_cons, List.length_nil] at h1
    · omega
    · omega
    · omega
    · omega
    · unfold changeStatusChar at hch
      rw [hsp] at hch
      rcases hp : (pyPartition [tabC] (pyJoin spC (f0 :: f1 :: f2 :: f3 :: rest2))).1 with
        _ | ⟨sc, tl⟩
      · rw [hp] at hch
        simp at hch
      · rw [hp] at hch
        simp only [List.head?] at hch
        have hsc : sc = ch := by injection hch
        subst hsc
        simp only [hp, changeFiles_skip sc _ hn]
  refine ⟨hstep, ?_⟩
  have hgo : changesGo resolve st (line :: rest) =
      match changesStep resolve st line with
      | (ems, .ok st2) =>
        let r := changesGo resolve st2 rest
        (ems ++ r.1, r.2)
      | (ems, .error e) => (ems, some e) := rfl
  rw [hgo, hstep]
  simp

theorem c7_unknown_status_skipped_witness :
    startsNul (pys ":100644 100644 abc1234 def5678 M\x09f.txt") = false ∧
    4 ≤ (pySplitC spC (pys ":100644 100644 abc1234 def5678 M\x09f.txt")).length ∧
    changeStatusChar (pys ":100644 100644 abc1234 def5678 M\x09f.txt") = some ':' ∧
    (':') ∉ RecognizedStatus ∧
    changesStep (fun s => s) (some (pys "c1")) (pys ":100644 100644 abc1234 def5678 M\x09f.txt") =
      ([], Except.ok (some (pys "c1"))) ∧
    changesGo (fun s => s) (some (pys "c1"))
        [pys ":100644 100644 abc1234 def5678 M\x09f.txt"] =
      changesGo (fun s => s) (some (pys "c1")) [] := by
  have h := c7_unknown_status_skipped (fun s => s) (some (pys "c1"))
    (pys ":100644 100644 abc1234 def5678 M\x09f.txt") [] ':'
    (by decide) (by decide) (by decide) (by decide)
  exact ⟨by decide, by decide, by decide, by decide, h.1, h.2⟩

/-! ### C8: Delete records -/

lemma changeFiles_delete (sc : Char) (files : PyStr) (sf df : Option PyStr)
    (h : changeFiles sc files = .yield sf df) (hD : sc = STATUS_DELETE) :
    df = none := by
  subst hD
  unfold changeFiles at h
  rw [if_neg (by decide), if_pos rfl] at h
  cases h
  rfl

lemma changesStep_delete_dst (resolve : PyStr → PyStr) (st : Option PyStr)
    (line : PyStr) :
    ∀ c ∈ (changesStep resolve st line).1, c.status = STATUS_DELETE →
      c.dst_file = none := by
  intro c hc hD
  unfold changesStep at hc
  split at hc
  · simp at hc
  split at hc
  · simp at hc
  split at hc
  case h_2 => simp at hc
  dsimp only at hc
  split at hc
  · simp at hc
  split at hc
  case h_2 => simp at hc
  case h_3 => simp at hc
  split at hc
  · simp at hc
  simp only [List.mem_singleton] at hc
  subst hc
  rename_i hyield cmo cmv
  exact changeFiles_delete _ _ _ _ hyield hD

/-- C8, amended.  Every Change record yielded by the change parser with
status Delete has destination path `None`; the source hash is not
validated against the sentinel (see the counterexample theorem for the
sentinel case being yielded without error). -/
theorem c8_delete_dst_none (resolve : PyStr → PyStr) (lines : List PyStr)
    (c : Change) (hc : c ∈ (changes resolve lines).1)
    (hD : c.status = STATUS_DELETE) : c.dst_file = none := by
  suffices h : ∀ (ls : List PyStr) (st : Option PyStr) (c : Change),
      c ∈ (changesGo resolve st ls).1 → c.status = STATUS_DELETE →
      c.dst_file = none from h lines none c hc hD
  intro ls
  induction ls with
  | nil => intro st c hc; simp [changesGo] at hc
  | cons l ls2 ih =>
    intro st c hc hD2
    unfold changesGo at hc
    rcases hstep : changesStep resolve st l with ⟨ems, est⟩
    rw [hstep] at hc
    cases est with
    | ok st2 =>
      simp only [List.mem_append] at hc
      rcases hc with h | h
      · exact changesStep_delete_dst resolve st l c (by rw [hstep]; exact h) hD2
      · exact ih st2 c h hD2
    | error e =>
      simp only at hc
      exact changesStep_delete_dst resolve st l c (by rw [hstep]; exact hc) hD2

theorem c8_delete_dst_none_witness :
    (⟨pys "c1", pys "D100644", NULL_HASH, pys "000000", pys "0000000\x09f.txt",
        'D', none, some (pys "f.txt"), none⟩ : Change) ∈
      (changes (fun s => s)
        [pys "\x00c1\x00", pys "D100644 000000 0000000 0000000\x09f.txt"]).1 ∧
    (⟨pys "c1", pys "D100644", NULL_HASH, pys "000000", pys "0000000\x09f.txt",
        'D', none, some (pys "f.txt"), none⟩ : Change).dst_file = none := by
  refine ⟨by decide, ?_⟩
  exact c8_delete_dst_none (fun s => s)
    [pys "\x00c1\x00", pys "D100644 000000 0000000 0000000\x09f.txt"]
    _ (by decide) (by decide)

/-- C8, counterexample.  A Delete line whose source hash is the all-zero
abbreviation: the parser resolves it to the 40-zero sentinel and yields
the record with no error of any kind — it does not raise a
malformed-record error, and the yielded Delete record's source hash *is*
the sentinel, refuting the claim as stated. -/
theorem c8_sentinel_delete_counterexample :
    (changes (fun s => s)
        [pys "\x00c1\x00", pys "D100644 000000 0000000 0000000\x09f.txt"]) =
      ([⟨pys "c1", pys "D100644", NULL_HASH, pys "000000", pys "0000000\x09f.txt",
          'D', none, some (pys "f.txt"), none⟩], none) := by decide

/-! ### C4: header field count -/

/-- C4.  Whenever a line is processed as a header (no header is pending,
or the line starts with the NUL sentinel) and splitting it on the NUL
byte does not produce exactly 12 fields, the parser step raises
`GitFormatError` for that line instead of producing a state that could
yield a Commit from it. -/
theorem c4_header_twelve_fields (s : CState) (line : PyStr)
    (hhdr : s.pending = none ∨ startsNul line = true)
    (hlen : (pySplitC nulC line).length ≠ 12) :
    (commitsStep s line).2 = Except.error (GitFormatError.invalidLine line) := by
  have hph : parseHeader line = .error (.invalidLine line) := by
    simp only [parseHeader]
    rw [if_neg hlen]
  rcases hhdr with h | h
  · simp [commitsStep, h, hph]
  · cases hp : s.pending with
    | none => simp [commitsStep, hp, hph]
    | some p => simp [commitsStep, hp, h, hph]

theorem c4_header_twelve_fields_witness :
    (pySplitC nulC (pys "bad")).length ≠ 12 ∧
    (commitsStep initCState (pys "bad")).2 =
      Except.error (GitFormatError.invalidLine (pys "bad")) :=
  ⟨by decide, c4_header_twelve_fields initCState (pys "bad") (Or.inl rfl) (by decide)⟩

/-! ### C2: every emitted Commit has non-null timestamps -/

/-- Both timestamps of a commit record are present. -/
def datedCommit (c : GCommit) : Prop :=
  c.author_date ≠ none ∧ c.commiter_date ≠ none

lemma restore_commit_dated (b l : GCommit) (hl : datedCommit l) :
    datedCommit (restore_commit b l) := by
  unfold datedCommit restore_commit
  constructor <;> dsimp only <;> split
  · exact hl.1
  · assumption
  · exact hl.2
  · assumption

lemma flushBuf_dated (buf : List GCommit) (last : Option GCommit)
    (h : ∀ l, last = some l → datedCommit l) :
    ∀ c ∈ flushBuf buf last, datedCommit c := by
  cases last with
  | none => simp [flushBuf]
  | some l =>
    intro c hc
    simp only [flushBuf, List.mem_map] at hc
    obtain ⟨b, hb, rfl⟩ := hc
    exact restore_commit_dated b l (h l rfl)

lemma completeCommit_dated (p : Pending) (text : List PyStr) (last : Option GCommit)
    (buf : List GCommit) (h : ∀ l, last = some l → datedCommit l) :
    (∀ c ∈ (completeCommit p text last buf).1, datedCommit c) ∧
    (∀ l, (completeCommit p text last buf).2.1 = some l → datedCommit l) := by
  unfold completeCommit
  dsimp only
  split
  · exact ⟨by simp, h⟩
  · rename_i hval
    rw [not_or] at hval
    cases last with
    | some lv =>
      have hdl := h lv rfl
      refine ⟨?_, ?_⟩
      · intro c hc
        dsimp only at hc
        rw [List.mem_append] at hc
        rcases hc with hc | hc
        · rw [List.mem_map] at hc
          obtain ⟨b, hb, rfl⟩ := hc
          exact restore_commit_dated b lv hdl
        · rw [List.mem_singleton] at hc
          subst hc
          exact hval
      · intro l2 hl2
        dsimp only at hl2
        injection hl2 with hl2
        subst hl2
        exact hval
    | none =>
      refine ⟨?_, ?_⟩
      · intro c hc
        dsimp only at hc
        rw [List.mem_singleton] at hc
        subst hc
        exact hval
      · intro l2 hl2
        dsimp only at hl2
        injection hl2 with hl2
        subst hl2
        exact hval

lemma commitsStep_dated (s : CState) (line : PyStr)
    (h : ∀ l, s.last = some l → datedCommit l) :
    (∀ c ∈ (commitsStep s line).1, datedCommit c) ∧
    (∀ s2, (commitsStep s line).2 = Except.ok s2 →
      ∀ l, s2.last = some l → datedCommit l) := by
  unfold commitsStep
  cases hp : s.pending with
  | none =>
    cases hh : parseHeader line with
    | ok p2 =>
      refine ⟨by simp, ?_⟩
      intro s2 hs2
      injection hs2 with hs2
      subst hs2
      dsimp only
      exact h
    | error e =>
      refine ⟨by simp, ?_⟩
      intro s2 hs2
      cases hs2
  | some p =>
    cases hsn : startsNul line with
    | false =>
      refine ⟨by simp, ?_⟩
      intro s2 hs2
      injection hs2 with hs2
      subst hs2
      dsimp only
      exact h
    | true =>
      have hcd := completeCommit_dated p s.text s.last s.buf h
      cases hh : parseHeader line with
      | ok p2 =>
        refine ⟨?_, ?_⟩
        · intro c hc
          dsimp only at hc
          exact hcd.1 c hc
        · intro s2 hs2
          dsimp only at hs2
          injection hs2 with hs2
          subst hs2
          dsimp only
          exact hcd.2
      | error e =>
        refine ⟨?_, ?_⟩
        · intro c hc
          dsimp only at hc
          exact hcd.1 c hc
        · intro s2 hs2
          dsimp only at hs2
          cases hs2

lemma commitsFinish_dated (s : CState) (h : ∀ l, s.last = some l → datedCommit l) :
    ∀ c ∈ commitsFinish s, datedCommit c := by
  unfold commitsFinish
  cases hp : s.pending with
  | some p =>
    have hcd := completeCommit_dated p s.text s.last s.buf h
    intro c hc
    dsimp only at hc
    rw [List.mem_append] at hc
    rcases hc with hc | hc
    · exact hcd.1 c hc
    · exact flushBuf_dated _ _ hcd.2 c hc
  | none =>
    intro c hc
    dsimp only at hc
    rw [List.mem_append] at hc
    rcases hc with hc | hc
    · simp at hc
    · exact flushBuf_dated _ _ h c hc

lemma commitsGo_dated : ∀ (lines : List PyStr) (s : CState),
    (∀ l, s.last = some l → datedCommit l) →
    ∀ c ∈ (commitsGo s lines).1, datedCommit c
  | [], s, h => by
    intro c hc
    simp only [commitsGo] at hc
    exact commitsFinish_dated s h c hc
  | line :: ls, s, h => by
    intro c hc
    have hstep := commitsStep_dated s line h
    unfold commitsGo at hc
    rcases hs : commitsStep s line with ⟨ems, est⟩
    rw [hs] at hc hstep
    cases est with
    | ok s2 =>
      dsimp only at hc hstep
      rw [List.mem_append] at hc
      rcases hc with hc | hc
      · exact hstep.1 c hc
      · exact commitsGo_dated ls s2 (hstep.2 s2 rfl) c hc
    | error e =>
      dsimp only at hc hstep
      exact hstep.1 c hc

/-- C2.  Every Commit record emitted by the commit parser carries
non-null author and committer timestamps: date-less commits are buffered
in `no_date` rather than yielded, and leave the buffer only through
`restore_commit`, which backfills the missing dates from a well-formed
commit (whose dates are non-null). -/
theorem c2_emitted_dates_nonnull (lines : List PyStr) (c : GCommit)
    (hc : c ∈ (commits lines).1) :
    c.author_date ≠ none ∧ c.commiter_date ≠ none := by
  have h := commitsGo_dated lines initCState
    (by intro l hl; simp [initCState] at hl) c hc
  exact h

theorem c2_emitted_dates_nonnull_witness :
    (⟨pys "h1", pys "t1", pys "", pys "An", pys "ae@x",
        some (pys "2024-01-02 03:04:05"), pys "Cn", pys "ce@x",
        some (pys "2024-01-02 03:04:06"), pys "subj", pys ""⟩ : GCommit) ∈
      (commits [pys "\x00h1\x00t1\x00\x00An\x00ae@x\x002024-01-02 03:04:05 +0000\x00Cn\x00ce@x\x002024-01-02 03:04:06 +0000\x00subj\x00"]).1 ∧
    (some (pys "2024-01-02 03:04:05") ≠ (none : Option PyStr)) ∧
    (some (pys "2024-01-02 03:04:06") ≠ (none : Option PyStr)) := by
  have hm : (⟨pys "h1", pys "t1", pys "", pys "An", pys "ae@x",
      some (pys "2024-01-02 03:04:05"), pys "Cn", pys "ce@x",
      some (pys "2024-01-02 03:04:06"), pys "subj", pys ""⟩ : GCommit) ∈
      (commits [pys "\x00h1\x00t1\x00\x00An\x00ae@x\x002024-01-02 03:04:05 +0000\x00Cn\x00ce@x\x002024-01-02 03:04:06 +0000\x00subj\x00"]).1 := by
    decide
  exact ⟨hm, c2_emitted_dates_nonnull _ _ hm⟩

/-! ### C10: a stream with no well-formed commit emits nothing -/

/-- A header line whose author-date and committer-date fields are both
empty (and which satisfies the 12-field shape). -/
def headerEmptyDates (line : PyStr) : Prop :=
  (pySplitC nulC line).length = 12 ∧
  (pySplitC nulC line).getD 6 [] = [] ∧
  (pySplitC nulC line).getD 9 [] = []

instance (line : PyStr) : Decidable (headerEmptyDates line) := by
  unfold headerEmptyDates
  infer_instance

lemma parseHeader_emptyDates (line : PyStr) (h : headerEmptyDates line) :
    ∃ p, parseHeader line = .ok p ∧ p.author_date = none ∧ p.commiter_date = none := by
  obtain ⟨h12, h6, h9⟩ := h
  simp only [parseHeader]
  rw [if_pos h12]
  refine ⟨_, rfl, ?_, ?_⟩
  · show parseDateField ((pySplitC nulC line).getD 6 []) = none
    rw [h6]
    rfl
  · show parseDateField ((pySplitC nulC line).getD 9 []) = none
    rw [h9]
    rfl

lemma completeCommit_dateless (p : Pending) (text : List PyStr)
    (last : Option GCommit) (buf : List GCommit) (hd : p.author_date = none) :
    completeCommit p text last buf =
      ([], last, buf ++ [mkGCommit p (pyJoin lfC text)]) := by
  unfold completeCommit
  rw [if_pos (Or.inl (by simp [mkGCommit, hd]))]

lemma c10_go : ∀ (lines : List PyStr) (s : CState),
    s.last = none →
    (∀ p, s.pending = some p → p.author_date = none ∧ p.commiter_date = none) →
    (s.pending = none → ∀ l, lines.head? = some l → startsNul l = true) →
    (∀ l ∈ lines, startsNul l = true → headerEmptyDates l) →
    commitsGo s lines = ([], none)
  | [], s, hlast, hpend, _, _ => by
    have hfin : commitsFinish s = [] := by
      unfold commitsFinish
      cases hp : s.pending with
      | none => simp [flushBuf, hlast]
      | some p =>
        have hd := hpend p hp
        dsimp only
        rw [completeCommit_dateless p s.text s.last s.buf hd.1]
        simp [flushBuf, hlast]
    simp only [commitsGo, hfin]
  | line :: ls, s, hlast, hpend, hfirst, hall => by
    unfold commitsGo
    cases hp : s.pending with
    | none =>
      have hsn : startsNul line = true := hfirst hp line rfl
      obtain ⟨p2, hph, hpa, hpc⟩ :=
        parseHeader_emptyDates line (hall line (List.mem_cons_self _ _) hsn)
      have hstep : commitsStep s line =
          ([], .ok { s with pending := some p2, text := [] }) := by
        unfold commitsStep
        rw [hp]
        dsimp only
        rw [hph]
      rw [hstep]
      dsimp only
      rw [c10_go ls { s with pending := some p2, text := [] } hlast
        (by intro q hq; dsimp only at hq; injection hq with hq; subst hq
            exact ⟨hpa, hpc⟩)
        (by intro hcontr; simp at hcontr)
        (fun l hl hs => hall l (List.mem_cons_of_mem _ hl) hs)]
      rfl
    | some p =>
      cases hsn : startsNul line with
      | false =>
        have hstep : commitsStep s line =
            ([], .ok { s with text := s.text ++ [line] }) := by
          unfold commitsStep
          rw [hp]
          dsimp only
          rw [hsn]
          rfl
        rw [hstep]
        dsimp only
        rw [c10_go ls { s with text := s.text ++ [line] } hlast
          (by intro q hq; dsimp only at hq; exact hpend q (hp ▸ hq))
          (by intro hcontr; dsimp only at hcontr; rw [hp] at hcontr; cases hcontr)
          (fun l hl hs => hall l (List.mem_cons_of_mem _ hl) hs)]
        rfl
      | true =>
        obtain ⟨p2, hph, hpa, hpc⟩ :=
          parseHeader_emptyDates line (hall line (List.mem_cons_self _ _) hsn)
        have hd := hpend p hp
        have hstep : commitsStep s line =
            ([], .ok (CState.mk (some p2) [] s.last
              (s.buf ++ [mkGCommit p (pyJoin lfC s.text)]))) := by
          unfold commitsStep
          rw [hp]
          dsimp only
          rw [hsn, if_pos rfl]
          rw [completeCommit_dateless p s.text s.last s.buf hd.1, hph]
        rw [hstep]
        dsimp only
        rw [c10_go ls (CState.mk (some p2) [] s.last
              (s.buf ++ [mkGCommit p (pyJoin lfC s.text)])) hlast
          (by intro q hq; dsimp only at hq; injection hq with hq; subst hq
              exact ⟨hpa, hpc⟩)
          (by intro hcontr; simp at hcontr)
          (fun l hl hs => hall l (List.mem_cons_of_mem _ hl) hs)]
        rfl

/-- C10.  If every header line of the stream has empty author and
committer date fields (every line that starts with the NUL sentinel, and
the first line does), then no well-formed commit is ever observed: the
parser emits no Commit record at all and raises no error — the buffered
date-less commits are silently discarded at the end of the stream. -/
theorem c10_no_wellformed_no_output (lines : List PyStr)
    (h0 : ∀ l, lines.head? = some l → startsNul l = true)
    (h1 : ∀ l ∈ lines, startsNul l = true → headerEmptyDates l) :
    commits lines = ([], none) :=
  c10_go lines initCState rfl
    (by intro p hp; cases hp)
    (fun _ => h0) h1

theorem c10_no_wellformed_no_output_witness :
    commits [pys "\x00h1\x00t\x00\x00An\x00ae\x00\x00Cn\x00ce\x00\x00s1\x00",
             pys "\x00h2\x00t\x00\x00An\x00ae\x00\x00Cn\x00ce\x00\x00s2\x00"] =
      ([], none) := by
  apply c10_no_wellformed_no_output
  · intro l hl
    simp only [List.head?] at hl
    injection hl with hl
    subst hl
    decide
  · intro l hl hs
    simp only [List.mem_cons, List.not_mem_nil, or_false] at hl
    rcases hl with rfl | rfl
    · decide
    · decide

end Prometrics
